import Mathlib

/-!
Verification development for the nitro-enclaves control plane sources:
`src/enclave_proc/socket.rs` (control socket + removal watcher) and
`tests/test_dev_driver.rs` (device driver / enclave slot management).

The Rust code is shallowly embedded: the filesystem, the shared atomic
flag heap and the recorded process-exit status form an explicit `World`
state; privileged-interface calls (`ioctl`, `close`) are modelled by
their integer results, passed in as parameters, since the kernel side
is outside the program.
-/

namespace NitroSpec

/-! ## Device driver model (`tests/test_dev_driver.rs`) -/

/-- Embedding of `NitroEnclave { enc_fd: RawFd }`: the descriptor of one
allocated enclave slot.  `RawFd` is a C `int`; we model it as `Int`. -/
structure NitroEnclave where
  enc_fd : Int
deriving DecidableEq, Repr

/-- Embedding of `NitroEnclave::new(enc_fd)`, which unconditionally
returns `Ok(NitroEnclave { enc_fd })`. -/
def NitroEnclave.new (enc_fd : Int) : Except String NitroEnclave :=
  Except.ok { enc_fd := enc_fd }

/-- Rust's `Result::unwrap`: `none` models the panic on `Err`. -/
def unwrapResult {α : Type} : Except String α → Option α
  | Except.ok a => some a
  | Except.error _ => none

/-- Embedding of `NitroEnclavesDeviceDriver::create_enclave`.  The
`ioctl(file, KVM_CREATE_VM, &enc_type)` result is the parameter
`enc_fd` (the kernel is outside the program).  A negative result is
surfaced as `Err`; otherwise `NitroEnclave::new(enc_fd).unwrap()` is
returned.  The outer `Option` records a potential panic of `unwrap`:
`none` would mean the function panicked. -/
def create_enclave (enc_fd : Int) : Option (Except String NitroEnclave) :=
  if enc_fd < 0 then
    some (Except.error ("Could not create an enclave fd: " ++ toString enc_fd ++ "."))
  else
    (unwrapResult (NitroEnclave.new enc_fd)).map Except.ok

/-- Outcome of `Drop for NitroEnclave` / `NitroEnclave::release`. -/
inductive DropOutcome where
  /-- `enc_fd < 0`: `drop` returns early, `release` is not called. -/
  | skipped : DropOutcome
  /-- `release` ran and `libc::close` returned a non-negative value. -/
  | released : DropOutcome
  /-- `release` ran, `libc::close` returned a negative value, and the
  `panic!` fired with the given message. -/
  | panicked : String → DropOutcome
deriving DecidableEq, Repr

/-- Embedding of `Drop for NitroEnclave` (which calls `release` unless
`enc_fd < 0`).  `closeRc` is the result of the `libc::close(enc_fd)`
call.  The first component counts how many times `close` was invoked on
the descriptor; the second is the control-flow outcome. -/
def NitroEnclave.drop (e : NitroEnclave) (closeRc : Int) : Nat × DropOutcome :=
  if e.enc_fd < 0 then
    (0, DropOutcome.skipped)
  else if closeRc < 0 then
    (1, DropOutcome.panicked ("Could not close enclave descriptor: " ++ toString closeRc ++ "."))
  else
    (1, DropOutcome.released)

/-- Embedding of `NitroEnclave::add_mem_region`.  The
`ioctl(enc_fd, KVM_SET_USER_MEMORY_REGION, &region)` result is the
parameter `rc`; the region contents only travel to the kernel, so the
layer's behaviour depends on the call only through `rc`.  The function
is total: the Rust body has no panicking operation. -/
def add_mem_region (rc : Int) : Except String Unit :=
  if rc < 0 then
    Except.error ("Could not add memory region: " ++ toString rc ++ ".")
  else
    Except.ok ()

/-! ## Control socket model (`src/enclave_proc/socket.rs`)

`PathBuf` is modelled as `String`.  The mutable environment shared by
the owner thread and the watcher thread is an explicit `World`:
the set of filesystem paths that exist, a heap of `AtomicBool` cells
(an `Arc<AtomicBool>` is an index into that heap, so clones genuinely
share the cell), and the recorded `std::process::exit` status. -/

/-- The shared mutable environment of the program. -/
structure World where
  /-- The set of paths present on the filesystem, as a list. -/
  fs : List String
  /-- The heap of `AtomicBool` cells; an `Arc<AtomicBool>` is an index. -/
  flags : List Bool
  /-- `some code` once `std::process::exit(code)` has been called. -/
  exited : Option Nat
deriving DecidableEq, Repr

/-- `AtomicBool::load(Ordering::SeqCst)` on cell `fid`. -/
def flagAt (w : World) (fid : Nat) : Bool :=
  w.flags.getD fid false

/-- The data the spawned watcher thread closes over: the clone of
`socket_path` and the clone of the `Arc<AtomicBool>` made inside
`start_monitoring`. -/
structure MonitorHandle where
  watchedPath : String
  flagId : Nat
deriving DecidableEq, Repr

/-- Embedding of `EnclaveProcSock`: the socket path, the optional
join handle of the removal-listener thread, and the shared
`requested_remove` flag (an index into `World.flags`). -/
structure EnclaveProcSock where
  socket_path : String
  remove_listener_thread : Option MonitorHandle
  requested_remove : Nat
deriving DecidableEq, Repr

/-- The primitive side effects performed by `close_mut`, recorded so
that the order of effects is part of the semantics. -/
inductive SockAction where
  /-- `requested_remove.store(b, Ordering::SeqCst)` on cell `fid`. -/
  | storeFlag : Nat → Bool → SockAction
  /-- `std::fs::remove_file(path)`. -/
  | unlink : String → SockAction
  /-- `remove_listener_thread.take().unwrap().join()`. -/
  | joinMonitor : SockAction
deriving DecidableEq, Repr

/-- Effect of one primitive action on the world.  `remove_file` on a
present path succeeds and removes it (an OS-level failure makes the
process exit via `ok_or_exit` and is outside this model, as is thread
panic during `join`). -/
def stepAction (w : World) (a : SockAction) : World :=
  match a with
  | SockAction.storeFlag fid b => { w with flags := w.flags.set fid b }
  | SockAction.unlink p => { w with fs := w.fs.filter (fun q => q ≠ p) }
  | SockAction.joinMonitor => w

/-- Run a list of primitive actions from left to right. -/
def runActs (w : World) (as : List SockAction) : World :=
  as.foldl stepAction w

/-- Embedding of `EnclaveProcSock::new`: `get_socket_path` derives the
path from the enclave id (in `common.rs`, outside these sources); its
result is the parameter.  A fresh `AtomicBool::new(false)` cell is
allocated at the end of the flag heap. -/
def EnclaveProcSock.new (w : World) (socket_path : String) :
    World × EnclaveProcSock :=
  ({ w with flags := w.flags ++ [false] },
   { socket_path := socket_path
     remove_listener_thread := none
     requested_remove := w.flags.length })

/-- Embedding of `Clone for EnclaveProcSock`: clones the path, shares
the flag cell, and never carries the thread handle. -/
def EnclaveProcSock.clone (s : EnclaveProcSock) : EnclaveProcSock :=
  { socket_path := s.socket_path
    remove_listener_thread := none
    requested_remove := s.requested_remove }

/-- Embedding of `EnclaveProcSock::set_path`. -/
def EnclaveProcSock.set_path (s : EnclaveProcSock) (socket_path : String) :
    EnclaveProcSock :=
  { s with socket_path := socket_path }

/-- Embedding of `EnclaveProcSock::start_monitoring`: clones the path
and the flag at call time, adds an inotify watch on the current path
(which fails when the path does not exist), and spawns the watcher
thread with the two clones, storing its handle. -/
def EnclaveProcSock.start_monitoring (w : World) (s : EnclaveProcSock) :
    Except Unit EnclaveProcSock :=
  let path_clone := s.socket_path
  let requested_remove_clone := s.requested_remove
  let handle := MonitorHandle.mk path_clone requested_remove_clone
  if w.fs.contains s.socket_path then
    Except.ok { s with remove_listener_thread := some handle }
  else
    Except.error ()

/-- Embedding of `EnclaveProcSock::close_mut`, recording the sequence
of primitive effects in program order: first the `SeqCst` store of
`true` to the shared flag, then — when the path still exists — the
unlink, then — when a listener thread handle is present — taking the
handle and joining the thread.  Returns the final world, the socket
after `take()`, and the effect trace. -/
def EnclaveProcSock.close_mut (w : World) (s : EnclaveProcSock) :
    World × EnclaveProcSock × List SockAction :=
  let a1 := SockAction.storeFlag s.requested_remove true
  let w1 := stepAction w a1
  let unlinkActs :=
    if w1.fs.contains s.socket_path then [SockAction.unlink s.socket_path] else []
  let w2 := runActs w1 unlinkActs
  let joinActs :=
    if s.remove_listener_thread.isSome then [SockAction.joinMonitor] else []
  let w3 := runActs w2 joinActs
  (w3, { s with remove_listener_thread := none }, a1 :: (unlinkActs ++ joinActs))

/-- Embedding of `EnclaveProcSock::close(mut self)`: runs `close_mut`,
and then — because `self` is consumed — `Drop` runs `close_mut` once
more on the already-closed socket. -/
def EnclaveProcSock.close (w : World) (s : EnclaveProcSock) :
    World × List SockAction :=
  let r1 := EnclaveProcSock.close_mut w s
  let r2 := EnclaveProcSock.close_mut r1.1 r1.2.1
  (r2.1, r1.2.2 ++ r2.2.2)

/-- Embedding of `Drop for EnclaveProcSock`: `drop` simply calls
`close_mut`. -/
def EnclaveProcSock.dropSock (w : World) (s : EnclaveProcSock) :
    World × EnclaveProcSock × List SockAction :=
  EnclaveProcSock.close_mut w s

/-! ### The removal watcher (`socket_removal_listener`) -/

/-- One inotify event, reduced to the two mask bits the listener
inspects. -/
structure InEvent where
  maskAttrib : Bool
  maskDeleteSelf : Bool
deriving DecidableEq, Repr

/-- `event.mask.contains(ATTRIB) || event.mask.contains(DELETE_SELF)`. -/
def matchingEvent (e : InEvent) : Bool :=
  e.maskAttrib || e.maskDeleteSelf

/-- The watcher's control state: still looping (`done = false`), loop
finished gracefully (`done = true`), or the whole process exited. -/
inductive LState where
  | watching : LState
  | doneLoop : LState
  | exited : Nat → LState
deriving DecidableEq, Repr

/-- The body of the `for event in events` loop of
`socket_removal_listener`: for an `ATTRIB` or `DELETE_SELF` event it
re-checks that the socket path is really gone from the filesystem;
if so, a set `requested_remove` flag means the owner deleted the
socket itself (`done = true`), and a clear flag means an external
deletion (`std::process::exit(1)`).  Once the process has exited no
further code runs. -/
def listener_event (p : String) (fid : Nat) (ws : World × LState)
    (e : InEvent) : World × LState :=
  match ws.2 with
  | LState.exited c => (ws.1, LState.exited c)
  | st =>
    if matchingEvent e && !(ws.1.fs.contains p) then
      if flagAt ws.1 fid then
        (ws.1, LState.doneLoop)
      else
        ({ ws.1 with exited := some 1 }, LState.exited 1)
    else
      (ws.1, st)

/-- Processing of one batch of events read by
`read_events_blocking`: the `for` loop over the batch. -/
def listener_batch (p : String) (fid : Nat) (w : World) (st : LState)
    (es : List InEvent) : World × LState :=
  es.foldl (listener_event p fid) (w, st)

/-- The `while !done` loop of `socket_removal_listener`, with the
batches delivered by successive `read_events_blocking` calls given as a
list (a read failure exits the process via `ok_or_exit` and is outside
this model).  The loop keeps reading only while `done` is false and the
process is alive. -/
def socket_removal_listener (p : String) (fid : Nat) :
    World → LState → List (List InEvent) → World × LState
  | w, LState.watching, b :: bs =>
    let r := listener_batch p fid w LState.watching b
    socket_removal_listener p fid r.1 r.2 bs
  | w, st, _ => (w, st)

/-! ## Theorems: device driver -/

/-- C4: `add_mem_region` faithfully surfaces every rejection by the
privileged interface: the call succeeds exactly when the interface
result is non-negative, and returns an error exactly when the result is
negative (whatever the kernel's reason: wrong size, unaligned address,
or duplicate slot).  The function is total, so it never panics. -/
theorem add_mem_region_surfaces_rejection (rc : Int) :
    (add_mem_region rc = Except.ok () ↔ 0 ≤ rc)
    ∧ ((∃ msg, add_mem_region rc = Except.error msg) ↔ rc < 0) := by
  unfold add_mem_region
  by_cases h : rc < 0
  · simp [h]
  · simp [h]
    omega

/-- C8: `create_enclave` never panics (the result is always `some`,
i.e. the inner `unwrap` always succeeds because `NitroEnclave::new` is
infallible), returns an error carrying the failing value exactly when
the slot-creation result is negative, and otherwise returns an enclave
wrapping the returned descriptor. -/
theorem create_enclave_spec (rc : Int) :
    (create_enclave rc).isSome = true
    ∧ (rc < 0 ↔ create_enclave rc
        = some (Except.error ("Could not create an enclave fd: " ++ toString rc ++ ".")))
    ∧ (0 ≤ rc ↔ create_enclave rc = some (Except.ok (NitroEnclave.mk rc))) := by
  unfold create_enclave unwrapResult NitroEnclave.new
  by_cases h : rc < 0
  · simp [h]
  · simp [h]
    omega

/-- C5 counterexample: the claim says a *non-zero* close result aborts
the process, but `release` only panics on a *negative* result: with a
valid descriptor `0` and a close result `1` (non-zero), the drop
completes without aborting. -/
theorem drop_positive_close_rc_not_aborted :
    (NitroEnclave.drop (NitroEnclave.mk 0) 1).2 = DropOutcome.released
    ∧ ((1 : Int) ≠ 0) := by
  decide

/-- C5 (amended): when a `NitroEnclave` is dropped, a strictly negative
descriptor is a no-op (close is never called); a valid descriptor has
`close` called on it exactly once, and a strictly *negative* close
result aborts (panics) rather than being swallowed, while a
non-negative result completes the release. -/
theorem drop_release_exactly_once (fd closeRc : Int) :
    ((NitroEnclave.drop (NitroEnclave.mk fd) closeRc).1 = if fd < 0 then 0 else 1)
    ∧ ((NitroEnclave.drop (NitroEnclave.mk fd) closeRc).2 = DropOutcome.skipped ↔ fd < 0)
    ∧ ((∃ msg, (NitroEnclave.drop (NitroEnclave.mk fd) closeRc).2 = DropOutcome.panicked msg)
        ↔ (0 ≤ fd ∧ closeRc < 0))
    ∧ ((NitroEnclave.drop (NitroEnclave.mk fd) closeRc).2 = DropOutcome.released
        ↔ (0 ≤ fd ∧ 0 ≤ closeRc)) := by
  unfold NitroEnclave.drop
  by_cases h1 : fd < 0
  · simp [h1]
  · by_cases h2 : closeRc < 0
    · simp [h1, h2]
      omega
    · simp [h1, h2]
      omega

/-! ## Helper lemmas -/

/-- Whether a primitive action is a store to a shared flag cell. -/
def isStore : SockAction → Bool
  | SockAction.storeFlag _ _ => true
  | _ => false

lemma getD_set_self (l : List Bool) (i : Nat) (h : i < l.length) (b : Bool) :
    (l.set i b).getD i false = b := by
  simp [List.getD, List.getElem?_set_self, h]

lemma set_of_getD (l : List Bool) (i : Nat) (b : Bool) (h : i < l.length)
    (hv : l.getD i false = b) : l.set i b = l := by
  apply List.ext_getElem?
  intro n
  by_cases hn : i = n
  · subst hn
    rw [List.getElem?_set_self]
    · simp [List.getD, List.getElem?_eq_getElem h] at hv
      simp [List.getElem?_eq_getElem h, hv]
    · exact h
  · rw [List.getElem?_set_ne hn]

lemma contains_filter_ne (l : List String) (p : String) :
    (l.filter (fun q => q ≠ p)).contains p = false := by
  simp

lemma filter_ne_of_not_contains (l : List String) (p : String)
    (h : l.contains p = false) : l.filter (fun q => q ≠ p) = l := by
  rw [List.filter_eq_self]
  intro a ha
  simp at h ⊢
  exact fun he => h (he ▸ ha)

lemma stepAction_flags_of_not_store (w : World) (a : SockAction)
    (h : isStore a = false) : (stepAction w a).flags = w.flags := by
  cases a with
  | storeFlag fid b => simp [isStore] at h
  | unlink p => rfl
  | joinMonitor => rfl

lemma runActs_flags_of_no_store (as : List SockAction) :
    ∀ (w : World), (∀ a ∈ as, isStore a = false) → (runActs w as).flags = w.flags := by
  induction as with
  | nil => intro w _; rfl
  | cons a as ih =>
    intro w h
    have h1 : isStore a = false := h a (List.mem_cons_self a as)
    have h2 : ∀ b ∈ as, isStore b = false := fun b hb => h b (List.mem_cons_of_mem a hb)
    calc (runActs w (a :: as)).flags
        = (runActs (stepAction w a) as).flags := rfl
      _ = (stepAction w a).flags := ih (stepAction w a) h2
      _ = w.flags := stepAction_flags_of_not_store w a h1

/-- The actions of `close_mut` after the initial flag store are the
optional unlink and the optional join, none of which is a store. -/
lemma close_mut_trace_shape (w : World) (s : EnclaveProcSock) :
    ∃ rest, (EnclaveProcSock.close_mut w s).2.2
        = SockAction.storeFlag s.requested_remove true :: rest
      ∧ (∀ a ∈ rest, isStore a = false) := by
  by_cases hc : s.socket_path ∈ (stepAction w (SockAction.storeFlag s.requested_remove true)).fs
  · by_cases hj : s.remove_listener_thread.isSome
    · refine ⟨[SockAction.unlink s.socket_path, SockAction.joinMonitor], ?_, ?_⟩
      · simp [EnclaveProcSock.close_mut, hc, hj]
      · intro a ha
        simp at ha
        rcases ha with h | h <;> subst h <;> rfl
    · refine ⟨[SockAction.unlink s.socket_path], ?_, ?_⟩
      · simp [EnclaveProcSock.close_mut, hc, hj]
      · intro a ha
        simp at ha
        subst ha
        rfl
  · by_cases hj : s.remove_listener_thread.isSome
    · refine ⟨[SockAction.joinMonitor], ?_, ?_⟩
      · simp [EnclaveProcSock.close_mut, hc, hj]
      · intro a ha
        simp at ha
        subst ha
        rfl
    · refine ⟨[], ?_, ?_⟩
      · simp [EnclaveProcSock.close_mut, hc, hj]
      · intro a ha
        simp at ha

/-! ## Listener lemmas -/

lemma listener_event_exited (p : String) (fid : Nat) (w : World) (c : Nat)
    (e : InEvent) : listener_event p fid (w, LState.exited c) e = (w, LState.exited c) := by
  rfl

lemma listener_batch_exited (p : String) (fid : Nat) (c : Nat) :
    ∀ (es : List InEvent) (w : World),
      listener_batch p fid w (LState.exited c) es = (w, LState.exited c) := by
  intro es
  induction es with
  | nil => intro w; rfl
  | cons e es ih =>
    intro w
    calc listener_batch p fid w (LState.exited c) (e :: es)
        = listener_batch p fid w (LState.exited c) es := rfl
      _ = (w, LState.exited c) := ih w

lemma listener_event_flags (p : String) (fid : Nat) (ws : World × LState)
    (e : InEvent) : (listener_event p fid ws e).1.flags = ws.1.flags := by
  rcases ws with ⟨w, st⟩
  cases st <;> simp only [listener_event] <;> split_ifs <;> rfl

lemma listener_foldl_flags (p : String) (fid : Nat) (es : List InEvent) :
    ∀ (ws : World × LState),
      (es.foldl (listener_event p fid) ws).1.flags = ws.1.flags := by
  induction es with
  | nil => intro ws; rfl
  | cons e es ih =>
    intro ws
    calc (List.foldl (listener_event p fid) ws (e :: es)).1.flags
        = (List.foldl (listener_event p fid) (listener_event p fid ws e) es).1.flags := rfl
      _ = (listener_event p fid ws e).1.flags := ih _
      _ = ws.1.flags := listener_event_flags p fid ws e

lemma listener_batch_done_of_flag (p : String) (fid : Nat) :
    ∀ (es : List InEvent) (w : World), flagAt w fid = true →
      listener_batch p fid w LState.doneLoop es = (w, LState.doneLoop) := by
  intro es
  induction es with
  | nil => intro w _; rfl
  | cons e es ih =>
    intro w hflag
    have hstep : listener_event p fid (w, LState.doneLoop) e = (w, LState.doneLoop) := by
      simp only [listener_event]
      split_ifs with hg <;> simp [hflag]
    calc listener_batch p fid w LState.doneLoop (e :: es)
        = List.foldl (listener_event p fid) (listener_event p fid (w, LState.doneLoop) e) es := rfl
      _ = List.foldl (listener_event p fid) (w, LState.doneLoop) es := by rw [hstep]
      _ = (w, LState.doneLoop) := ih w hflag

lemma listener_batch_watching_of_flag (p : String) (fid : Nat) :
    ∀ (es : List InEvent) (w : World), flagAt w fid = true →
      listener_batch p fid w LState.watching es
        = (w, if es.any (fun e => matchingEvent e && !(w.fs.contains p))
              then LState.doneLoop else LState.watching) := by
  intro es
  induction es with
  | nil => intro w _; rfl
  | cons e es ih =>
    intro w hflag
    by_cases hg : matchingEvent e = true ∧ p ∉ w.fs
    · have hstep : listener_event p fid (w, LState.watching) e = (w, LState.doneLoop) := by
        simp only [listener_event]
        simp [hg.1, hg.2, hflag]
      calc listener_batch p fid w LState.watching (e :: es)
          = List.foldl (listener_event p fid) (listener_event p fid (w, LState.watching) e) es :=
            rfl
        _ = listener_batch p fid w LState.doneLoop es := by rw [hstep]; rfl
        _ = (w, LState.doneLoop) := listener_batch_done_of_flag p fid es w hflag
        _ = (w, if (e :: es).any (fun e => matchingEvent e && !(w.fs.contains p))
                then LState.doneLoop else LState.watching) := by simp [hg.1, hg.2]
    · have hstep : listener_event p fid (w, LState.watching) e = (w, LState.watching) := by
        simp only [listener_event]
        simp [hg]
      calc listener_batch p fid w LState.watching (e :: es)
          = List.foldl (listener_event p fid) (listener_event p fid (w, LState.watching) e) es :=
            rfl
        _ = listener_batch p fid w LState.watching es := by rw [hstep]; rfl
        _ = (w, if es.any (fun e => matchingEvent e && !(w.fs.contains p))
                then LState.doneLoop else LState.watching) := ih w hflag
        _ = (w, if (e :: es).any (fun e => matchingEvent e && !(w.fs.contains p))
                then LState.doneLoop else LState.watching) := by
              simp [List.any_cons, hg]

lemma listener_batch_exit_of_no_flag (p : String) (fid : Nat) :
    ∀ (es : List InEvent) (w : World), flagAt w fid = false → w.fs.contains p = false →
      listener_batch p fid w LState.watching es
        = (if es.any matchingEvent
           then ({ w with exited := some 1 }, LState.exited 1)
           else (w, LState.watching)) := by
  intro es
  induction es with
  | nil => intro w _ _; rfl
  | cons e es ih =>
    intro w hflag habs
    have habs2 : p ∉ w.fs := by simpa using habs
    by_cases hg : matchingEvent e = true
    · have hstep : listener_event p fid (w, LState.watching) e
          = ({ w with exited := some 1 }, LState.exited 1) := by
        simp only [listener_event]
        simp [hg, habs2, hflag]
      calc listener_batch p fid w LState.watching (e :: es)
          = List.foldl (listener_event p fid) (listener_event p fid (w, LState.watching) e) es :=
            rfl
        _ = listener_batch p fid { w with exited := some 1 } (LState.exited 1) es := by
            rw [hstep]; rfl
        _ = ({ w with exited := some 1 }, LState.exited 1) :=
            listener_batch_exited p fid 1 es _
        _ = (if (e :: es).any matchingEvent
             then ({ w with exited := some 1 }, LState.exited 1)
             else (w, LState.watching)) := by simp [hg]
    · have hstep : listener_event p fid (w, LState.watching) e = (w, LState.watching) := by
        simp only [listener_event]
        simp [hg]
      calc listener_batch p fid w LState.watching (e :: es)
          = List.foldl (listener_event p fid) (listener_event p fid (w, LState.watching) e) es :=
            rfl
        _ = listener_batch p fid w LState.watching es := by rw [hstep]; rfl
        _ = (if es.any matchingEvent
             then ({ w with exited := some 1 }, LState.exited 1)
             else (w, LState.watching)) := ih w hflag habs
        _ = (if (e :: es).any matchingEvent
             then ({ w with exited := some 1 }, LState.exited 1)
             else (w, LState.watching)) := by
              simp [List.any_cons, hg]

/-! ## Theorems: watcher policy -/

/-- C2: for a batch of events seen by the watcher that contains an
attribute-change or self-deletion event while the watched path is
absent from the filesystem: when the shared flag is true the watcher
finishes the batch in the Done state and its loop exits normally, with
the world untouched (no further side effects, later batches unread);
when the shared flag is false the watcher terminates the whole process
with the distinguished non-zero status 1. -/
theorem listener_removal_policy (w : World) (p : String) (fid : Nat)
    (es : List InEvent) (bs : List (List InEvent))
    (habs : w.fs.contains p = false)
    (hmatch : es.any matchingEvent = true) :
    (flagAt w fid = true →
      socket_removal_listener p fid w LState.watching (es :: bs) = (w, LState.doneLoop))
    ∧ (flagAt w fid = false →
      socket_removal_listener p fid w LState.watching (es :: bs)
        = ({ w with exited := some 1 }, LState.exited 1)) := by
  constructor
  · intro hflag
    have habs2 : p ∉ w.fs := by simpa using habs
    have hcond : es.any (fun e => matchingEvent e && !(w.fs.contains p)) = true := by
      simpa [habs2] using hmatch
    have hbatch : listener_batch p fid w LState.watching es = (w, LState.doneLoop) := by
      rw [listener_batch_watching_of_flag p fid es w hflag, hcond]
      simp
    calc socket_removal_listener p fid w LState.watching (es :: bs)
        = socket_removal_listener p fid (listener_batch p fid w LState.watching es).1
            (listener_batch p fid w LState.watching es).2 bs := by
          simp only [socket_removal_listener]
      _ = socket_removal_listener p fid w LState.doneLoop bs := by rw [hbatch]
      _ = (w, LState.doneLoop) := by simp only [socket_removal_listener]
  · intro hflag
    have hbatch : listener_batch p fid w LState.watching es
        = ({ w with exited := some 1 }, LState.exited 1) := by
      rw [listener_batch_exit_of_no_flag p fid es w hflag habs, hmatch]
      simp
    calc socket_removal_listener p fid w LState.watching (es :: bs)
        = socket_removal_listener p fid (listener_batch p fid w LState.watching es).1
            (listener_batch p fid w LState.watching es).2 bs := by
          simp only [socket_removal_listener]
      _ = socket_removal_listener p fid { w with exited := some 1 } (LState.exited 1) bs := by
          rw [hbatch]
      _ = ({ w with exited := some 1 }, LState.exited 1) := by
          simp only [socket_removal_listener]

/-- C2 witness: on a world with no filesystem entry and flag cell 0 set,
one batch holding one `ATTRIB` event makes the watcher finish in the
Done state with the world untouched. -/
theorem listener_removal_policy_witness :
    (World.mk [] [true] none).fs.contains "sockp" = false
    ∧ [InEvent.mk true false].any matchingEvent = true
    ∧ socket_removal_listener "sockp" 0 (World.mk [] [true] none) LState.watching
        [[InEvent.mk true false]] = (World.mk [] [true] none, LState.doneLoop) :=
  ⟨rfl, rfl,
    (listener_removal_policy (World.mk [] [true] none) "sockp" 0
      [InEvent.mk true false] [] rfl rfl).1 rfl⟩

/-- C6: an event batch arriving while the watched path still exists on
the filesystem (for instance a batch of attribute-only events) causes
no state transition at all: the watcher stays in Watching, does not
set its done marker, and does not terminate the process. -/
theorem listener_no_false_positive (w : World) (p : String) (fid : Nat)
    (es : List InEvent) (hpres : w.fs.contains p = true) :
    listener_batch p fid w LState.watching es = (w, LState.watching) := by
  induction es with
  | nil => rfl
  | cons e es ih =>
    have hmem : p ∈ w.fs := by simpa using hpres
    have hg : ¬(matchingEvent e = true ∧ p ∉ w.fs) := fun hcontra => hcontra.2 hmem
    have hstep : listener_event p fid (w, LState.watching) e = (w, LState.watching) := by
      simp only [listener_event]
      simp [hg]
    calc listener_batch p fid w LState.watching (e :: es)
        = List.foldl (listener_event p fid) (listener_event p fid (w, LState.watching) e) es :=
          rfl
      _ = listener_batch p fid w LState.watching es := by rw [hstep]; rfl
      _ = (w, LState.watching) := ih

/-- C6 witness: a lone `ATTRIB` event while the socket file is still
present leaves the watcher in Watching with the world unchanged. -/
theorem listener_no_false_positive_witness :
    (World.mk ["sk"] [] none).fs.contains "sk" = true
    ∧ listener_batch "sk" 0 (World.mk ["sk"] [] none) LState.watching
        [InEvent.mk true false] = (World.mk ["sk"] [] none, LState.watching) :=
  ⟨rfl, listener_no_false_positive (World.mk ["sk"] [] none) "sk" 0
    [InEvent.mk true false] rfl⟩

/-- C7: the shared remove-requested flag is never written by the
watcher — a batch of the event loop, and the whole
`socket_removal_listener` loop, leave every flag cell unchanged (the
watcher only loads) — while the owner's `close_mut` path performs
exactly one store, of the value `true`, to the socket's own flag. -/
theorem flag_store_discipline :
    (∀ (p : String) (fid : Nat) (w : World) (st : LState) (es : List InEvent),
        (listener_batch p fid w st es).1.flags = w.flags)
    ∧ (∀ (p : String) (fid : Nat) (w : World) (st : LState) (bs : List (List InEvent)),
        (socket_removal_listener p fid w st bs).1.flags = w.flags)
    ∧ (∀ (w : World) (s : EnclaveProcSock),
        (EnclaveProcSock.close_mut w s).2.2.filter isStore
          = [SockAction.storeFlag s.requested_remove true]) := by
  refine ⟨?_, ?_, ?_⟩
  · intro p fid w st es
    exact listener_foldl_flags p fid es (w, st)
  · intro p fid w st bs
    induction bs generalizing w st with
    | nil => cases st <;> rfl
    | cons b bs ih =>
      cases st with
      | watching =>
        calc (socket_removal_listener p fid w LState.watching (b :: bs)).1.flags
            = (socket_removal_listener p fid (listener_batch p fid w LState.watching b).1
                (listener_batch p fid w LState.watching b).2 bs).1.flags := by
              simp only [socket_removal_listener]
          _ = (listener_batch p fid w LState.watching b).1.flags := ih _ _
          _ = w.flags := listener_foldl_flags p fid b (w, LState.watching)
      | doneLoop => rfl
      | exited c => rfl
  · intro w s
    obtain ⟨rest, htr, hrest⟩ := close_mut_trace_shape w s
    rw [htr]
    rw [List.filter_cons_of_pos (by rfl)]
    have : rest.filter isStore = [] := by
      rw [List.filter_eq_nil_iff]
      intro a ha
      simp [hrest a ha]
    rw [this]

/-- Closed form of `close_mut`: the world after, the socket with the
handle taken, and the effect trace, with both conditions (path present,
handle present) made explicit. -/
lemma close_mut_closed_form (w : World) (s : EnclaveProcSock) :
    EnclaveProcSock.close_mut w s
      = ({ w with
            flags := w.flags.set s.requested_remove true,
            fs := if s.socket_path ∈ w.fs
                  then w.fs.filter (fun q => q ≠ s.socket_path) else w.fs },
         { s with remove_listener_thread := none },
         SockAction.storeFlag s.requested_remove true ::
           ((if s.socket_path ∈ w.fs then [SockAction.unlink s.socket_path] else [])
            ++ (if s.remove_listener_thread.isSome = true
                then [SockAction.joinMonitor] else []))) := by
  unfold EnclaveProcSock.close_mut
  by_cases hc : s.socket_path ∈ w.fs <;>
    by_cases hj : s.remove_listener_thread.isSome = true <;>
      simp [hc, hj, runActs, stepAction]

/-! ## Theorems: close protocol -/

/-- C1: in every execution of `close_mut`, the store of `true` to the
shared remove-requested flag happens strictly before the unlink: for
every prefix of the effect trace (every intermediate state of the
execution), if the unlink has already occurred in that prefix then the
flag already reads `true` in the state the prefix produces. -/
theorem close_mut_flag_set_before_unlink (w : World) (s : EnclaveProcSock) (i : Nat)
    (hfid : s.requested_remove < w.flags.length)
    (hmem : SockAction.unlink s.socket_path ∈ (EnclaveProcSock.close_mut w s).2.2.take i) :
    flagAt (runActs w ((EnclaveProcSock.close_mut w s).2.2.take i)) s.requested_remove
      = true := by
  obtain ⟨rest, htr, hrest⟩ := close_mut_trace_shape w s
  rw [htr] at hmem ⊢
  cases i with
  | zero => simp at hmem
  | succ n =>
    rw [List.take_succ_cons] at hmem ⊢
    have hsub : ∀ a ∈ rest.take n, isStore a = false :=
      fun a ha => hrest a (List.take_subset n rest ha)
    have h1 : runActs w
        (SockAction.storeFlag s.requested_remove true :: rest.take n)
        = runActs (stepAction w (SockAction.storeFlag s.requested_remove true))
            (rest.take n) := rfl
    rw [h1]
    unfold flagAt
    rw [runActs_flags_of_no_store (rest.take n) _ hsub]
    exact getD_set_self w.flags s.requested_remove hfid true

/-- C1 witness: a socket whose path exists and whose flag cell is 0 in
a one-cell heap; after the two-action prefix (store then unlink) of the
close trace the flag reads true. -/
theorem close_mut_flag_set_before_unlink_witness :
    (EnclaveProcSock.mk "sk1" none 0).requested_remove
        < (World.mk ["sk1"] [false] none).flags.length
    ∧ SockAction.unlink "sk1"
        ∈ (EnclaveProcSock.close_mut (World.mk ["sk1"] [false] none)
            (EnclaveProcSock.mk "sk1" none 0)).2.2.take 2
    ∧ flagAt (runActs (World.mk ["sk1"] [false] none)
        ((EnclaveProcSock.close_mut (World.mk ["sk1"] [false] none)
            (EnclaveProcSock.mk "sk1" none 0)).2.2.take 2)) 0 = true :=
  ⟨by decide, by decide,
    close_mut_flag_set_before_unlink (World.mk ["sk1"] [false] none)
      (EnclaveProcSock.mk "sk1" none 0) 2 (by decide) (by decide)⟩

/-- C9: `close_mut` is idempotent.  After one run (flag stored true,
path unlinked if it existed, handle taken), running it again — as
happens when `close(self)` consumes the socket and `Drop` then fires —
changes nothing: the world and socket are returned unchanged, the
second trace is the lone (re-)store of `true` with no unlink and no
join, and the flag stays true. -/
theorem close_mut_idempotent (w : World) (s : EnclaveProcSock)
    (hfid : s.requested_remove < w.flags.length) :
    EnclaveProcSock.close_mut (EnclaveProcSock.close_mut w s).1
        (EnclaveProcSock.close_mut w s).2.1
      = ((EnclaveProcSock.close_mut w s).1, (EnclaveProcSock.close_mut w s).2.1,
         [SockAction.storeFlag s.requested_remove true])
    ∧ flagAt (EnclaveProcSock.close_mut w s).1 s.requested_remove = true := by
  constructor
  · rw [close_mut_closed_form w s]
    rw [close_mut_closed_form]
    by_cases hc : s.socket_path ∈ w.fs <;>
      simp [hc, List.set_set, List.mem_filter]
  · rw [close_mut_closed_form w s]
    unfold flagAt
    exact getD_set_self w.flags s.requested_remove hfid true

/-- C9 witness: concrete socket with an existing path; the second
`close_mut` run returns the state unchanged with a store-only trace,
and the flag reads true. -/
theorem close_mut_idempotent_witness :
    (EnclaveProcSock.mk "p9" none 0).requested_remove
        < (World.mk ["p9"] [false] none).flags.length
    ∧ flagAt (EnclaveProcSock.close_mut (World.mk ["p9"] [false] none)
        (EnclaveProcSock.mk "p9" none 0)).1 0 = true :=
  ⟨by decide,
    (close_mut_idempotent (World.mk ["p9"] [false] none)
      (EnclaveProcSock.mk "p9" none 0) (by decide)).2⟩

/-- Unfolding of `start_monitoring` with the intermediate clones
substituted. -/
lemma start_monitoring_eq (w : World) (s : EnclaveProcSock) :
    EnclaveProcSock.start_monitoring w s
      = if w.fs.contains s.socket_path
        then Except.ok { s with remove_listener_thread := some (MonitorHandle.mk s.socket_path s.requested_remove) }
        else Except.error () := rfl

/-- C10: `start_monitoring` captures the socket path at call time.
After a successful `start_monitoring`, a later `set_path` leaves the
watcher thread's captured path (and flag) exactly as they were when
monitoring started, while `close_mut` on the re-pathed socket only ever
unlinks the new path. -/
theorem start_monitoring_captures_path (w : World) (s s₁ : EnclaveProcSock) (p₂ : String)
    (h : EnclaveProcSock.start_monitoring w s = Except.ok s₁) :
    (s₁.set_path p₂).remove_listener_thread
        = some (MonitorHandle.mk s.socket_path s.requested_remove)
    ∧ (∀ (w₂ : World) (q : String),
        SockAction.unlink q ∈ (EnclaveProcSock.close_mut w₂ (s₁.set_path p₂)).2.2 →
          q = p₂) := by
  rw [start_monitoring_eq] at h
  by_cases hc : w.fs.contains s.socket_path = true
  · rw [if_pos hc] at h
    injection h with h2
    subst h2
    refine ⟨rfl, ?_⟩
    intro w₂ q hq
    rw [close_mut_closed_form] at hq
    simp only [EnclaveProcSock.set_path, List.mem_cons, List.mem_append] at hq
    rcases hq with h1 | hq
    · simp at h1
    rcases hq with h2 | h3
    · by_cases hm : p₂ ∈ w₂.fs
      · simp [hm] at h2
        exact h2
      · simp [hm] at h2
    · split_ifs at h3 <;> simp at h3
  · rw [if_neg hc] at h
    simp at h

/-- C10 witness: after monitoring starts on path `orig`, re-pathing the
socket to `moved` leaves the watcher's captured path at `orig`. -/
theorem start_monitoring_captures_path_witness :
    EnclaveProcSock.start_monitoring (World.mk ["orig"] [false] none)
        (EnclaveProcSock.mk "orig" none 0)
      = Except.ok (EnclaveProcSock.mk "orig" (some (MonitorHandle.mk "orig" 0)) 0)
    ∧ ((EnclaveProcSock.mk "orig" (some (MonitorHandle.mk "orig" 0)) 0).set_path
        "moved").remove_listener_thread = some (MonitorHandle.mk "orig" 0) :=
  ⟨by rfl,
    (start_monitoring_captures_path (World.mk ["orig"] [false] none)
      (EnclaveProcSock.mk "orig" none 0)
      (EnclaveProcSock.mk "orig" (some (MonitorHandle.mk "orig" 0)) 0) "moved"
      (by rfl)).1⟩

/-- C3 counterexample: dropping an observer clone is *not* side-effect
free.  On a world where the endpoint exists and the shared flag is
false, dropping the clone of the owner socket flips the shared flag to
true and unlinks the endpoint (it runs the full `close_mut` body). -/
theorem clone_drop_side_effects_cex :
    flagAt (World.mk ["csock"] [false] none) 0 = false
    ∧ (World.mk ["csock"] [false] none).fs.contains "csock" = true
    ∧ flagAt (EnclaveProcSock.dropSock (World.mk ["csock"] [false] none)
        (EnclaveProcSock.clone (EnclaveProcSock.mk "csock" none 0))).1 0 = true
    ∧ (EnclaveProcSock.dropSock (World.mk ["csock"] [false] none)
        (EnclaveProcSock.clone (EnclaveProcSock.mk "csock" none 0))).1.fs.contains "csock"
        = false := by
  decide

/-- C3 (amended): dropping an observer clone never touches the running
monitor (the clone holds no handle, so no join is ever attempted), but
it is not free of other effects: it stores `true` to the shared flag
and unlinks the endpoint if it still exists.  It leaves the world
entirely unchanged exactly when the flag is already true and the
endpoint is already absent (as after the owner's own close). -/
theorem clone_drop_no_join (w : World) (s : EnclaveProcSock)
    (hfid : s.requested_remove < w.flags.length) :
    SockAction.joinMonitor ∉ (EnclaveProcSock.dropSock w (EnclaveProcSock.clone s)).2.2
    ∧ flagAt (EnclaveProcSock.dropSock w (EnclaveProcSock.clone s)).1 s.requested_remove
        = true
    ∧ (EnclaveProcSock.dropSock w (EnclaveProcSock.clone s)).1.fs
        = w.fs.filter (fun q => q ≠ s.socket_path)
    ∧ (flagAt w s.requested_remove = true → w.fs.contains s.socket_path = false →
        (EnclaveProcSock.dropSock w (EnclaveProcSock.clone s)).1 = w) := by
  unfold EnclaveProcSock.dropSock
  rw [close_mut_closed_form]
  refine ⟨?_, ?_, ?_, ?_⟩
  · by_cases hc : (EnclaveProcSock.clone s).socket_path ∈ w.fs <;>
      simp [hc, EnclaveProcSock.clone]
  · unfold flagAt
    exact getD_set_self w.flags s.requested_remove hfid true
  · by_cases hc : s.socket_path ∈ w.fs
    · simp [EnclaveProcSock.clone, hc]
    · simp only [EnclaveProcSock.clone, hc, if_neg]
      exact (filter_ne_of_not_contains w.fs s.socket_path (by simpa using hc)).symm
  · intro hflag habs
    have habs2 : ¬s.socket_path ∈ w.fs := by simpa using habs
    have hset : w.flags.set s.requested_remove true = w.flags :=
      set_of_getD w.flags s.requested_remove true hfid hflag
    simp [EnclaveProcSock.clone, habs2, hset]

/-- C3 (amended) witness: dropping a clone over an empty filesystem
still sets the shared flag to true. -/
theorem clone_drop_no_join_witness :
    (EnclaveProcSock.mk "w3" none 0).requested_remove
        < (World.mk [] [false] none).flags.length
    ∧ flagAt (EnclaveProcSock.dropSock (World.mk [] [false] none)
        (EnclaveProcSock.clone (EnclaveProcSock.mk "w3" none 0))).1 0 = true :=
  ⟨by decide,
    (clone_drop_no_join (World.mk [] [false] none)
      (EnclaveProcSock.mk "w3" none 0) (by decide)).2.1⟩

end NitroSpec
